import Mathlib

/-!
# Verification of `src/Core/MemoryManager.js` (roBrowserLegacy)

Shallow embedding of the two observed variants of the memory-manager cache:

* variant 1 (namespace `MM1`): pools and reuses `MemoryItem` slots, and its
  `get` records `Date.now()` in the `_lastAccessTime` map;
* variant 2 (namespace `MM2`): allocates a fresh slot per entry, its `get`
  does not touch `_lastAccessTime`, timestamps are recorded only through the
  extra exported function `updateAccessTime`, and its `clean` removes entries
  while iterating the map (relying on JS `Map` iterator semantics: deleting
  the entry currently being visited does not disturb the iteration, and
  `remove` only ever deletes the key currently being visited).

JS values that can appear as cached payloads are modelled by `JSValue`
(null/undefined, a string, or an object carrying the fields the reclamation
code inspects: `frames` and `texture`).  The WebGL context is modelled as the
list of live texture handles; the externally observable reclamation work
(`gl.deleteTexture`, `URL.revokeObjectURL`) is returned as an explicit action
log, and listener invocations are returned as an explicit event log.
Machine time values (`Date.now()`, the game tick) are modelled as `Int`.
-/

/-! ## Association-list model of a JS `Map`

JS `Map` semantics: `get` finds the (unique) entry, `set` overwrites an
existing entry in place keeping its position and appends a new key at the
end, `delete` removes the entry, and iteration is in insertion order. -/

/-- Lookup in an insertion-ordered association list (JS `Map.prototype.get`). -/
def mget {α : Type} (m : List (String × α)) (k : String) : Option α :=
  match m with
  | [] => none
  | p :: rest => if p.1 = k then some p.2 else mget rest k

/-- Update/append in an insertion-ordered association list (JS `Map.prototype.set`). -/
def mset {α : Type} (m : List (String × α)) (k : String) (v : α) : List (String × α) :=
  match m with
  | [] => [(k, v)]
  | p :: rest => if p.1 = k then (k, v) :: rest else p :: mset rest k v

/-- Deletion from an association list (JS `Map.prototype.delete`). -/
def merase {α : Type} (m : List (String × α)) (k : String) : List (String × α) :=
  match m with
  | [] => []
  | p :: rest => if p.1 = k then merase rest k else p :: merase rest k

/-! ## JS values, the WebGL context and the observable effects -/

/-- One entry of a sprite's `frames` array; the reclamation code only reads
its `texture` field.  `none` models an absent/falsy texture handle. -/
structure Frame where
  texture : Option Nat
deriving DecidableEq, Repr

/-- The object fields inspected by `remove`'s reclamation switch. -/
structure FileObj where
  frames : Option (List Frame)
  texture : Option Nat
deriving DecidableEq, Repr

/-- A JS value as far as the cache observes it: `null`/`undefined`, a string
(blob URLs are strings), or a decoded asset object. -/
inductive JSValue where
  | nullV : JSValue
  | strV (s : String) : JSValue
  | objV (o : FileObj) : JSValue
deriving DecidableEq, Repr

/-- JS truthiness of a payload: `null`/`undefined` and `""` are falsy,
non-empty strings and objects are truthy. -/
def JSValue.truthy : JSValue → Bool
  | .nullV => false
  | .strV s => !s.isEmpty
  | .objV _ => true

/-- Reading `.frames` off a JS value: defined (possibly) only on objects,
`undefined` (hence falsy) on anything else. -/
def JSValue.framesOf : JSValue → Option (List Frame)
  | .objV o => o.frames
  | _ => none

/-- Reading `.texture` off a JS value. -/
def JSValue.textureOf : JSValue → Option Nat
  | .objV o => o.texture
  | _ => none

/-- `file.match && file.match(/^blob\:/)`: only strings have a `match`
method, and the regex tests for the `blob:` scheme at the start. -/
def JSValue.isBlob : JSValue → Bool
  | .strV s => s.startsWith "blob:"
  | _ => false

/-- The underlying string of a string value (used for `URL.revokeObjectURL`). -/
def JSValue.blobStr : JSValue → String
  | .strV s => s
  | _ => ""

/-- The WebGL context, modelled as the list of live texture handles:
`gl.isTexture t` is membership and `gl.deleteTexture t` removes `t`. -/
abbrev GLState := List Nat

/-- Externally observable reclamation actions performed by `remove`. -/
inductive GLAction where
  | deleteTexture (t : Nat) : GLAction
  | revokeObjectURL (u : String) : GLAction
deriving DecidableEq, Repr

/-- Is this action a GPU texture release? -/
def GLAction.isDeleteTexture : GLAction → Bool
  | .deleteTexture _ => true
  | _ => false

/-- Externally observable listener invocations: a `load` or `error` callback
(identified by an opaque id) invoked with the resolved payload. -/
inductive Ev where
  | load (l : Nat) (d : JSValue) : Ev
  | err (l : Nat) (d : JSValue) : Ev
deriving DecidableEq, Repr

/-- Is this event an error-listener invocation? -/
def Ev.isErr : Ev → Bool
  | .err _ _ => true
  | _ => false

/-! ## MemoryItem

Modelled from the spec: `Core/MemoryItem.js` is a dependency of
`MemoryManager.js` that is not under `src/`; only its use sites are.  Per the
spec's CacheEntry contract: a slot holds a state in {Pending, Loaded, Error},
the payload value, and the registered listeners; a listener registered before
completion is invoked exactly once at transition time in registration order;
a listener registered after completion is invoked exactly once, synchronously,
at registration time with the already-resolved outcome (and is not stored
again); `onload`/`onerror` store the payload, transition the state and fire
then clear the pending listeners; `complete` is true in the Loaded and Error
states; `reset` restores the pristine (Pending, no data, no listeners)
state. -/

/-- Lifecycle state of a cache slot. -/
inductive ItemState where
  | pending : ItemState
  | loaded : ItemState
  | error : ItemState
deriving DecidableEq, Repr

/-- A cache slot (see the module comment: modelled from the spec). -/
structure MemoryItem where
  state : ItemState
  data : JSValue
  loadListeners : List Nat
  errorListeners : List Nat
deriving DecidableEq, Repr

/-- A pristine slot: pending, no data, no listeners. -/
def MemoryItem.new : MemoryItem :=
  { state := .pending, data := .nullV, loadListeners := [], errorListeners := [] }

/-- Modelled from the spec: `reset` restores the pristine state. -/
def MemoryItem.reset (_it : MemoryItem) : MemoryItem :=
  MemoryItem.new

/-- Modelled from the spec: `complete` is true iff the slot is resolved. -/
def MemoryItem.complete (it : MemoryItem) : Bool :=
  decide (it.state ≠ ItemState.pending)

/-- Modelled from the spec: `addEventListener('load', l)`.  Pending: store
the listener.  Loaded: invoke it synchronously with the payload.  Error: the
success arm of a resolved-to-error slot is never invoked. -/
def MemoryItem.addLoadListener (it : MemoryItem) (l : Nat) : MemoryItem × List Ev :=
  match it.state with
  | .pending => ({ it with loadListeners := it.loadListeners ++ [l] }, [])
  | .loaded => (it, [Ev.load l it.data])
  | .error => (it, [])

/-- Modelled from the spec: `addEventListener('error', l)`, symmetric to
`addLoadListener`. -/
def MemoryItem.addErrorListener (it : MemoryItem) (l : Nat) : MemoryItem × List Ev :=
  match it.state with
  | .pending => ({ it with errorListeners := it.errorListeners ++ [l] }, [])
  | .error => (it, [Ev.err l it.data])
  | .loaded => (it, [])

/-- Modelled from the spec: `onload(d)` stores the payload, moves to Loaded,
invokes the registered load listeners in order, and clears the pending
listener lists. -/
def MemoryItem.onload (it : MemoryItem) (d : JSValue) : MemoryItem × List Ev :=
  ({ state := .loaded, data := d, loadListeners := [], errorListeners := [] },
   it.loadListeners.map (fun l => Ev.load l d))

/-- Modelled from the spec: `onerror(d)` stores the payload, moves to Error,
invokes the registered error listeners in order, and clears the pending
listener lists. -/
def MemoryItem.onerror (it : MemoryItem) (d : JSValue) : MemoryItem × List Ev :=
  ({ state := .error, data := d, loadListeners := [], errorListeners := [] },
   it.errorListeners.map (fun l => Ev.err l d))

/-! ## Shared manager state and constants -/

/-- The module-level state of `MemoryManager.js`: `_memory`, the slot pool
`_memoryItemPool` (only used by variant 1), `_lastAccessTime` and
`_lastCheckTick`. -/
structure MMState where
  memory : List (String × MemoryItem)
  pool : List MemoryItem
  lastAccessTime : List (String × Int)
  lastCheckTick : Int
deriving DecidableEq, Repr

/-- The pristine module state. -/
def MMState.init : MMState :=
  { memory := [], pool := [], lastAccessTime := [], lastCheckTick := 0 }

/-- `_rememberTime = 2 * 60 * 1000`. -/
def rememberTime : Int := 2 * 60 * 1000

/-- `_cleanUpInterval = 30 * 1000`. -/
def cleanUpInterval : Int := 30 * 1000

/-- The eligibility comparison `_lastAccessTime.get(filename) < tick`: a
missing entry yields `undefined`, and `undefined < tick` is `false` in JS. -/
def latLt (lat : List (String × Int)) (k : String) (tick : Int) : Bool :=
  match mget lat k with
  | some t => decide (t < tick)
  | none => false

/-- The extension computed by `remove`: `filename.match(/\.[^\.]+$/)`,
lower-cased, or `''` when the regex does not match.  The regex matches a
dot followed by one or more non-dot characters at the end of the string,
i.e. the suffix starting at the last dot provided at least one character
follows it. -/
def lastDotSuffix : List Char → Option (List Char)
  | [] => none
  | c :: rest =>
    match lastDotSuffix rest with
    | some e => some e
    | none => if c = '.' ∧ rest ≠ [] ∧ '.' ∉ rest then some (c :: rest) else none

/-- `var ext = filename.match(/\.[^\.]+$/)?.toString().toLowerCase() || ''`. -/
def extOf (filename : String) : String :=
  match lastDotSuffix filename.toList with
  | some e => String.mk (e.map Char.toLower)
  | none => ""

/-- One `if (x.texture && gl.isTexture(x.texture)) gl.deleteTexture(x.texture)`
step, accumulating the performed actions. -/
def delTex (gl : GLState) (t : Option Nat) (acts : List GLAction) :
    GLState × List GLAction :=
  match t with
  | some tex =>
    if gl.contains tex then (gl.filter (fun x => decide (x ≠ tex)), acts ++ [GLAction.deleteTexture tex])
    else (gl, acts)
  | none => (gl, acts)

/-- The per-frame texture loop of the `.spr` branch. -/
def freeFrames (gl : GLState) (frames : List Frame) : GLState × List GLAction :=
  frames.foldl (fun acc fr => delTex acc.1 fr.texture acc.2) (gl, [])

/-- The `switch (ext)` reclamation dispatch of `remove`, reached only when
the payload is truthy. -/
def freeFile (gl : GLState) (ext : String) (file : JSValue) : GLState × List GLAction :=
  if ext = ".spr" then
    let r :=
      match file.framesOf with
      | some fs => freeFrames gl fs
      | none => (gl, [])
    delTex r.1 file.textureOf r.2
  else if ext = ".pal" then
    delTex gl file.textureOf []
  else
    if file.isBlob then (gl, [GLAction.revokeObjectURL file.blobStr]) else (gl, [])

namespace MM1

/-- Slot lookup-or-create with pooling (variant 1): reuse a pooled slot after
`reset`, else allocate a fresh one, and install it in `_memory`. -/
def getOrCreate (st : MMState) (k : String) : MemoryItem × MMState :=
  match mget st.memory k with
  | some it => (it, st)
  | none =>
    match st.pool with
    | it0 :: rest =>
      let it := it0.reset
      (it, { st with memory := mset st.memory k it, pool := rest })
    | [] =>
      (MemoryItem.new, { st with memory := mset st.memory k MemoryItem.new })

/-- Variant 1 `get(filename, onload, onerror)`.  `now` is the value of
`Date.now()` at the call.  Returns the entry's current data, the new state,
and the listener invocations fired synchronously during registration. -/
def get (st : MMState) (k : String) (onload onerror : Option Nat) (now : Int) :
    JSValue × MMState × List Ev :=
  let r0 := getOrCreate st k
  let r1 :=
    match onload with
    | some l => r0.1.addLoadListener l
    | none => (r0.1, ([] : List Ev))
  let r2 :=
    match onerror with
    | some l => r1.1.addErrorListener l
    | none => (r1.1, ([] : List Ev))
  (r2.1.data,
   { r0.2 with memory := mset r0.2.memory k r2.1,
               lastAccessTime := mset r0.2.lastAccessTime k now },
   r1.2 ++ r2.2)

/-- `exist(filename)`. -/
def exist (st : MMState) (k : String) : Bool :=
  (mget st.memory k).isSome

/-- Variant 1 `set(filename, data, error)`; `error` is the truthiness of the
optional error argument. -/
def set (st : MMState) (k : String) (d : JSValue) (error : Bool) : MMState × List Ev :=
  let r0 := getOrCreate st k
  let hasError := error || !d.truthy
  let r1 := if hasError then r0.1.onerror d else r0.1.onload d
  ({ r0.2 with memory := mset r0.2.memory k r1.1 }, r1.2)

/-- Variant 1 `remove(gl, filename)`.  Returns the new GL state, the new
module state, and a log entry `(filename, actions)` for the reclamation pass
when the entry was present (the action list is empty when the payload is
falsy or carries no live external resource). -/
def remove (gl : GLState) (st : MMState) (k : String) :
    GLState × MMState × List (String × List GLAction) :=
  match mget st.memory k with
  | none => (gl, st, [])
  | some it =>
    let file := it.data
    let r := if file.truthy then freeFile gl (extOf k) file else (gl, [])
    (r.1,
     { st with memory := merase st.memory k,
               pool := st.pool ++ [it.reset],
               lastAccessTime := merase st.lastAccessTime k },
     [(k, r.2)])

/-- The `keysToDelete` snapshot computed by variant 1's `clean`:
the keys whose entry is complete and whose last access is older than
`tick = now - _rememberTime`. -/
def keysToDelete (st : MMState) (tick : Int) : List String :=
  (st.memory.filter (fun p => p.2.complete && latLt st.lastAccessTime p.1 tick)).map Prod.fst

/-- The eviction loop of variant 1's `clean`: `remove` each snapshotted key
in order, threading the GL state and concatenating the reclamation logs. -/
def removeMany (gl : GLState) (st : MMState) :
    List String → GLState × MMState × List (String × List GLAction)
  | [] => (gl, st, [])
  | k :: ks =>
    let r := remove gl st k
    let r' := removeMany r.1 r.2.1 ks
    (r'.1, r'.2.1, r.2.2 ++ r'.2.2)

/-- Variant 1 `clean(gl, now)`: rate-limited by `_lastCheckTick +
_cleanUpInterval > now`; otherwise snapshots the eligible keys, removes each,
and sets `_lastCheckTick = now`. -/
def clean (gl : GLState) (st : MMState) (now : Int) :
    GLState × MMState × List (String × List GLAction) :=
  if st.lastCheckTick + cleanUpInterval > now then (gl, st, [])
  else
    let r := removeMany gl st (keysToDelete st (now - rememberTime))
    (r.1, { r.2.1 with lastCheckTick := now }, r.2.2)

/-- `search(regex)`: the keys matching the regex (modelled as a predicate),
in insertion order. -/
def search (st : MMState) (p : String → Bool) : List String :=
  (st.memory.map Prod.fst).filter p

end MM1

namespace MM2

/-- Slot lookup-or-create without pooling (variant 2). -/
def getOrCreate (st : MMState) (k : String) : MemoryItem × MMState :=
  match mget st.memory k with
  | some it => (it, st)
  | none => (MemoryItem.new, { st with memory := mset st.memory k MemoryItem.new })

/-- Variant 2 `get(filename, onload, onerror)`: identical to variant 1's
except that it neither pools nor touches `_lastAccessTime`. -/
def get (st : MMState) (k : String) (onload onerror : Option Nat) :
    JSValue × MMState × List Ev :=
  let r0 := getOrCreate st k
  let r1 :=
    match onload with
    | some l => r0.1.addLoadListener l
    | none => (r0.1, ([] : List Ev))
  let r2 :=
    match onerror with
    | some l => r1.1.addErrorListener l
    | none => (r1.1, ([] : List Ev))
  (r2.1.data, { r0.2 with memory := mset r0.2.memory k r2.1 }, r1.2 ++ r2.2)

/-- `exist(filename)`. -/
def exist (st : MMState) (k : String) : Bool :=
  (mget st.memory k).isSome

/-- Variant 2 `set(filename, data, error)`. -/
def set (st : MMState) (k : String) (d : JSValue) (error : Bool) : MMState × List Ev :=
  let r0 := getOrCreate st k
  let hasError := error || !d.truthy
  let r1 := if hasError then r0.1.onerror d else r0.1.onload d
  ({ r0.2 with memory := mset r0.2.memory k r1.1 }, r1.2)

/-- Variant 2 `remove(gl, filename)`: identical to variant 1's except that
the removed slot is not pooled. -/
def remove (gl : GLState) (st : MMState) (k : String) :
    GLState × MMState × List (String × List GLAction) :=
  match mget st.memory k with
  | none => (gl, st, [])
  | some it =>
    let file := it.data
    let r := if file.truthy then freeFile gl (extOf k) file else (gl, [])
    (r.1,
     { st with memory := merase st.memory k,
               lastAccessTime := merase st.lastAccessTime k },
     [(k, r.2)])

/-- The `for (var [filename, item] of _memory)` eviction loop of variant 2's
`clean`, which removes entries while iterating.  The loop argument is the
sequence of entries the JS `Map` iterator yields: since `remove` only ever
deletes the entry currently being visited, that sequence is exactly the
initial entry list; `item.complete` is read off the visited entry while
`_lastAccessTime` is read live off the current state. -/
def cleanLoop (gl : GLState) (st : MMState) (tick : Int) :
    List (String × MemoryItem) → GLState × MMState × List (String × List GLAction)
  | [] => (gl, st, [])
  | (k, it) :: rest =>
    if it.complete && latLt st.lastAccessTime k tick then
      let r := remove gl st k
      let r' := cleanLoop r.1 r.2.1 tick rest
      (r'.1, r'.2.1, r.2.2 ++ r'.2.2)
    else cleanLoop gl st tick rest

/-- Variant 2 `clean(gl, now)`: same rate limiting as variant 1, but evicts
inline during iteration instead of snapshotting. -/
def clean (gl : GLState) (st : MMState) (now : Int) :
    GLState × MMState × List (String × List GLAction) :=
  if st.lastCheckTick + cleanUpInterval > now then (gl, st, [])
  else
    let r := cleanLoop gl st (now - rememberTime) st.memory
    (r.1, { r.2.1 with lastCheckTick := now }, r.2.2)

/-- `search(regex)`: variant 2 iterates entries rather than keys, with the
same result. -/
def search (st : MMState) (p : String → Bool) : List String :=
  (st.memory.map Prod.fst).filter p

/-- `updateAccessTime(filename, time)` — exported by variant 2 only. -/
def updateAccessTime (st : MMState) (k : String) (t : Int) : MMState :=
  { st with lastAccessTime := mset st.lastAccessTime k t }

end MM2

/-! ## Derived definitions used by the statements -/

/-- Equality of the observable parts of two module states: everything except
the slot pool (`_memoryItemPool`), which exists only as an allocation cache
in variant 1 and carries no observable content. -/
abbrev obsEq (s1 s2 : MMState) : Prop :=
  s1.memory = s2.memory ∧ s1.lastAccessTime = s2.lastAccessTime ∧
    s1.lastCheckTick = s2.lastCheckTick

/-- Replace the pool component of a state. -/
def withPool (s : MMState) (pl : List MemoryItem) : MMState :=
  { s with pool := pl }

/-- Replace the pool component inside an operation result. -/
def setPool (r : GLState × MMState × List (String × List GLAction))
    (pl : List MemoryItem) : GLState × MMState × List (String × List GLAction) :=
  (r.1, withPool r.2.1 pl, r.2.2)

/-- The keys of the entries of `L` that are complete and idle past `tick`
according to `lat` — the generalisation of `MM1.keysToDelete` used to relate
the snapshot loop of variant 1 to the inline loop of variant 2. -/
def eligKeys (lat : List (String × Int)) (tick : Int)
    (L : List (String × MemoryItem)) : List String :=
  (L.filter (fun p => p.2.complete && latLt lat p.1 tick)).map Prod.fst

/-- The suffix of a character list starting at its last `'.'`, with no
further condition (spec wording: "the substring from the last `.` to the
end"). -/
def suffixFromLastDot : List Char → Option (List Char)
  | [] => none
  | c :: rest =>
    match suffixFromLastDot rest with
    | some e => some e
    | none => if c = '.' then some (c :: rest) else none

/-- The discriminator exactly as the spec words it: "the substring from the
last `.` to the end, lower-cased; keys without a `.` get the empty
discriminator".  Written from the spec's words for comparison with `extOf`,
which is translated from the source's regex. -/
def specDiscriminator (filename : String) : String :=
  match suffixFromLastDot filename.toList with
  | some e => String.mk (e.map Char.toLower)
  | none => ""

/-- The discriminator as the code actually computes it, phrased in the
spec's vocabulary: the lower-cased substring from the last `.` to the end
provided at least one character follows that `.`; keys with no `.`, or whose
last `.` is the final character, get the empty discriminator. -/
def specDiscriminatorAmended (filename : String) : String :=
  match suffixFromLastDot filename.toList with
  | some e => if e.length ≤ 1 then "" else String.mk (e.map Char.toLower)
  | none => ""

/-! ## Concrete states used by counterexamples and witnesses -/

/-- A resolved (Loaded) slot holding an opaque string payload. -/
def itemX : MemoryItem :=
  { state := .loaded, data := .strV "x", loadListeners := [], errorListeners := [] }

/-- A state holding one completed entry whose last access is exactly
`now - rememberTime` for `now = 150000`. -/
def stBoundary : MMState :=
  { memory := [("a.txt", itemX)], pool := [],
    lastAccessTime := [("a.txt", 30000)], lastCheckTick := 0 }

/-- A state holding one pending entry (falsy payload) with a timestamp. -/
def stPending : MMState :=
  { memory := [("a.spr", MemoryItem.new)], pool := [],
    lastAccessTime := [("a.spr", 3)], lastCheckTick := 0 }

/-- A state holding one long-idle completed entry and one fresh one. -/
def stSweep : MMState :=
  { memory := [("a.txt", itemX), ("b.txt", itemX)], pool := [],
    lastAccessTime := [("a.txt", 0), ("b.txt", 140000)], lastCheckTick := 0 }

/-- A state holding one pending entry with one load and one error listener. -/
def stWait : MMState :=
  { memory := [("b.pal",
      { state := .pending, data := .nullV, loadListeners := [1], errorListeners := [2] })],
    pool := [], lastAccessTime := [], lastCheckTick := 0 }

/-! ## Map lemmas -/

theorem mget_set_self {α : Type} (m : List (String × α)) (k : String) (v : α) :
    mget (mset m k v) k = some v := by
  induction m with
  | nil => simp [mget, mset]
  | cons p rest ih =>
    by_cases h : p.1 = k
    · simp [mget, mset, h]
    · simp [mget, mset, h, ih]

theorem mget_set_ne {α : Type} (m : List (String × α)) (k k' : String) (v : α)
    (h : k' ≠ k) : mget (mset m k v) k' = mget m k' := by
  have h' : ¬ k = k' := fun hh => h hh.symm
  induction m with
  | nil => simp [mget, mset, h']
  | cons p rest ih =>
    by_cases hp : p.1 = k
    · simp [mget, mset, hp, h']
    · simp [mget, mset, hp, ih]

theorem mget_erase_self {α : Type} (m : List (String × α)) (k : String) :
    mget (merase m k) k = none := by
  induction m with
  | nil => simp [mget, merase]
  | cons p rest ih =>
    by_cases h : p.1 = k
    · simpa [merase, h] using ih
    · simpa [merase, mget, h] using ih

theorem mget_erase_ne {α : Type} (m : List (String × α)) (k k' : String)
    (h : k' ≠ k) : mget (merase m k) k' = mget m k' := by
  have h' : ¬ k = k' := fun hh => h hh.symm
  induction m with
  | nil => simp [merase]
  | cons p rest ih =>
    by_cases hp : p.1 = k
    · simpa [merase, mget, hp, h'] using ih
    · by_cases hk' : p.1 = k'
      · simp [merase, mget, hp, hk', h]
      · simpa [merase, mget, hp, hk', h] using ih

theorem mget_eq_none_iff {α : Type} (m : List (String × α)) (k : String) :
    mget m k = none ↔ k ∉ m.map Prod.fst := by
  induction m with
  | nil => simp [mget]
  | cons p rest ih =>
    obtain ⟨a, b⟩ := p
    by_cases h : a = k
    · subst h
      simp [mget]
    · have h' : ¬ k = a := fun hh => h hh.symm
      simp [mget, h, h', ih]

theorem mem_of_mget {α : Type} (m : List (String × α)) (k : String) (v : α)
    (h : mget m k = some v) : (k, v) ∈ m := by
  induction m with
  | nil => simp [mget] at h
  | cons p rest ih =>
    obtain ⟨a, b⟩ := p
    by_cases hp : a = k
    · subst hp
      simp only [mget, if_pos] at h
      injection h with hv
      subst hv
      exact List.mem_cons_self _ _
    · simp only [mget, hp, if_neg, not_false_iff] at h
      exact List.mem_cons_of_mem _ (ih h)

theorem mget_of_mem_nodup {α : Type} (m : List (String × α)) (k : String) (v : α)
    (hnd : (m.map Prod.fst).Nodup) (h : (k, v) ∈ m) : mget m k = some v := by
  induction m with
  | nil => simp at h
  | cons p rest ih =>
    obtain ⟨a, b⟩ := p
    simp only [List.map_cons, List.nodup_cons] at hnd
    rcases List.mem_cons.mp h with h1 | h1
    · injection h1 with h1a h1b
      simp [mget, h1a.symm, h1b]
    · have hne : ¬ a = k := by
        intro hh
        subst hh
        exact hnd.1 (List.mem_map.mpr ⟨(a, v), h1, rfl⟩)
      simp [mget, hne, ih hnd.2 h1]

theorem merase_of_mget_none {α : Type} (m : List (String × α)) (k : String)
    (h : mget m k = none) : merase m k = m := by
  induction m with
  | nil => simp [merase]
  | cons p rest ih =>
    by_cases hp : p.1 = k
    · simp [mget, hp] at h
    · simp only [mget, hp, if_neg, not_false_iff] at h
      simp [merase, hp, ih h]

theorem mget_filter {α : Type} (Q : String × α → Bool) (m : List (String × α))
    (k : String) (v : α) (hnd : (m.map Prod.fst).Nodup) (h : mget m k = some v) :
    mget (m.filter Q) k = if Q (k, v) then some v else none := by
  induction m with
  | nil => simp [mget] at h
  | cons p rest ih =>
    obtain ⟨a, b⟩ := p
    simp only [List.map_cons, List.nodup_cons] at hnd
    by_cases hp : a = k
    · subst hp
      simp only [mget, if_pos] at h
      injection h with hv
      subst hv
      have hfilter_none : mget (rest.filter Q) a = none := by
        refine (mget_eq_none_iff _ _).mpr ?_
        intro hc
        rcases List.mem_map.mp hc with ⟨q, hq1, hq2⟩
        exact hnd.1 (List.mem_map.mpr ⟨q, (List.mem_filter.mp hq1).1, hq2⟩)
      by_cases hq : Q (a, b)
      · simp [List.filter_cons, hq, mget]
      · simp [List.filter_cons, hq, hfilter_none]
    · simp only [mget, hp, if_neg, not_false_iff] at h
      by_cases hQ : Q (a, b)
      · simp [List.filter_cons, hQ, mget, hp, ih hnd.2 h]
      · simp [List.filter_cons, hQ, ih hnd.2 h]

/-! ## Lemmas about `remove` and the eviction loop -/

theorem mget_eraseMany {α : Type} (ks : List String) :
    ∀ (m : List (String × α)) (k : String),
      mget (ks.foldl merase m) k = if k ∈ ks then none else mget m k := by
  induction ks with
  | nil => intro m k; simp
  | cons k' ks ih =>
    intro m k
    rw [List.foldl_cons, ih]
    by_cases h : k = k'
    · subst h
      by_cases hk : k ∈ ks
      · simp [hk]
      · simp [hk, mget_erase_self]
    · by_cases hk : k ∈ ks
      · simp [hk, List.mem_cons]
      · simp [hk, h, List.mem_cons, mget_erase_ne m k' k h]

theorem latLt_congr (lat1 lat2 : List (String × Int)) (k : String) (tick : Int)
    (h : mget lat1 k = mget lat2 k) : latLt lat1 k tick = latLt lat2 k tick := by
  simp [latLt, h]

theorem remove1_memory (gl : GLState) (st : MMState) (k : String) :
    (MM1.remove gl st k).2.1.memory = merase st.memory k := by
  cases hm : mget st.memory k with
  | none => simp [MM1.remove, hm, merase_of_mget_none st.memory k hm]
  | some it => simp [MM1.remove, hm]

theorem remove1_lat_ne (gl : GLState) (st : MMState) (k k' : String)
    (h : k' ≠ k) :
    mget (MM1.remove gl st k).2.1.lastAccessTime k' = mget st.lastAccessTime k' := by
  cases hm : mget st.memory k with
  | none => simp [MM1.remove, hm]
  | some it => simp [MM1.remove, hm, mget_erase_ne _ _ _ h]

theorem remove1_lastCheckTick (gl : GLState) (st : MMState) (k : String) :
    (MM1.remove gl st k).2.1.lastCheckTick = st.lastCheckTick := by
  cases hm : mget st.memory k <;> simp [MM1.remove, hm]

theorem removeMany_nil (gl : GLState) (st : MMState) :
    MM1.removeMany gl st [] = (gl, st, []) := rfl

theorem removeMany_cons (gl : GLState) (st : MMState) (k : String) (ks : List String) :
    MM1.removeMany gl st (k :: ks) =
      ((MM1.removeMany (MM1.remove gl st k).1 (MM1.remove gl st k).2.1 ks).1,
       (MM1.removeMany (MM1.remove gl st k).1 (MM1.remove gl st k).2.1 ks).2.1,
       (MM1.remove gl st k).2.2 ++
         (MM1.removeMany (MM1.remove gl st k).1 (MM1.remove gl st k).2.1 ks).2.2) := rfl

theorem removeMany_memory (ks : List String) :
    ∀ (gl : GLState) (st : MMState),
      (MM1.removeMany gl st ks).2.1.memory = ks.foldl merase st.memory := by
  induction ks with
  | nil => intro gl st; rfl
  | cons k ks ih =>
    intro gl st
    rw [removeMany_cons]
    dsimp only
    rw [ih, remove1_memory, List.foldl_cons]

theorem removeMany_lastCheckTick (ks : List String) :
    ∀ (gl : GLState) (st : MMState),
      (MM1.removeMany gl st ks).2.1.lastCheckTick = st.lastCheckTick := by
  induction ks with
  | nil => intro gl st; rfl
  | cons k ks ih =>
    intro gl st
    rw [removeMany_cons]
    dsimp only
    rw [ih, remove1_lastCheckTick]

theorem removeMany_log (ks : List String) :
    ∀ (gl : GLState) (st : MMState), ks.Nodup →
      (∀ k ∈ ks, (mget st.memory k).isSome) →
      (MM1.removeMany gl st ks).2.2.map Prod.fst = ks := by
  induction ks with
  | nil => intro gl st _ _; rfl
  | cons k ks ih =>
    intro gl st hnd hpres
    simp only [List.nodup_cons] at hnd
    obtain ⟨it, hm⟩ := Option.isSome_iff_exists.mp (hpres k (List.mem_cons_self k ks))
    have hlog : (MM1.remove gl st k).2.2 =
        [(k, (if it.data.truthy then freeFile gl (extOf k) it.data else (gl, [])).2)] := by
      simp [MM1.remove, hm]
    have hpres' : ∀ k' ∈ ks, (mget (MM1.remove gl st k).2.1.memory k').isSome := by
      intro k' hk'
      rw [remove1_memory]
      have hne : k' ≠ k := fun hh => hnd.1 (hh ▸ hk')
      rw [mget_erase_ne _ _ _ hne]
      exact hpres k' (List.mem_cons_of_mem _ hk')
    rw [removeMany_cons]
    dsimp only
    rw [hlog, List.map_append, ih _ _ hnd.2 hpres']
    rfl

theorem keysToDelete_eq (st : MMState) (tick : Int) :
    MM1.keysToDelete st tick = eligKeys st.lastAccessTime tick st.memory := rfl

theorem keysToDelete_nodup (st : MMState) (tick : Int)
    (hnd : (st.memory.map Prod.fst).Nodup) : (MM1.keysToDelete st tick).Nodup :=
  hnd.sublist ((List.filter_sublist _).map Prod.fst)

theorem mem_keysToDelete (st : MMState) (tick : Int) (k : String) (it : MemoryItem)
    (hnd : (st.memory.map Prod.fst).Nodup) (hm : mget st.memory k = some it) :
    k ∈ MM1.keysToDelete st tick ↔
      (it.complete && latLt st.lastAccessTime k tick) = true := by
  constructor
  · intro h
    rcases List.mem_map.mp h with ⟨p, hp1, hp2⟩
    obtain ⟨a, b⟩ := p
    have ha : a = k := hp2
    subst ha
    rcases List.mem_filter.mp hp1 with ⟨hpmem, hpq⟩
    have h2 : mget st.memory a = some b := mget_of_mem_nodup _ _ _ hnd hpmem
    rw [hm] at h2
    injection h2 with hv
    rw [hv]
    exact hpq
  · intro h
    exact List.mem_map.mpr ⟨(k, it), List.mem_filter.mpr ⟨mem_of_mget _ _ _ hm, h⟩, rfl⟩

theorem keysToDelete_isSome (st : MMState) (tick : Int) :
    ∀ k ∈ MM1.keysToDelete st tick, (mget st.memory k).isSome := by
  intro k hk
  rcases List.mem_map.mp hk with ⟨p, hp1, hp2⟩
  obtain ⟨a, b⟩ := p
  have ha : a = k := hp2
  subst ha
  have hmem : (a, b) ∈ st.memory := (List.mem_filter.mp hp1).1
  cases hg : mget st.memory a with
  | some _ => rfl
  | none => exact absurd (List.mem_map.mpr ⟨(a, b), hmem, rfl⟩) ((mget_eq_none_iff _ _).mp hg)

/-! ## Relating the two variants: pooling is unobservable, and the inline
eviction loop of variant 2 agrees with the snapshot loop of variant 1 -/

theorem withPool_memory (s : MMState) (pl : List MemoryItem) :
    (withPool s pl).memory = s.memory := rfl

theorem withPool_lat (s : MMState) (pl : List MemoryItem) :
    (withPool s pl).lastAccessTime = s.lastAccessTime := rfl

theorem withPool_tick (s : MMState) (pl : List MemoryItem) :
    (withPool s pl).lastCheckTick = s.lastCheckTick := rfl

theorem setPool_fst (r : GLState × MMState × List (String × List GLAction))
    (pl : List MemoryItem) : (setPool r pl).1 = r.1 := rfl

theorem setPool_state (r : GLState × MMState × List (String × List GLAction))
    (pl : List MemoryItem) : (setPool r pl).2.1 = withPool r.2.1 pl := rfl

theorem setPool_log (r : GLState × MMState × List (String × List GLAction))
    (pl : List MemoryItem) : (setPool r pl).2.2 = r.2.2 := rfl

theorem remove2_pool_eq (gl : GLState) (s : MMState) (pl : List MemoryItem)
    (k : String) : MM2.remove gl (withPool s pl) k = setPool (MM1.remove gl s k) pl := by
  cases hm : mget s.memory k with
  | none => simp [MM1.remove, MM2.remove, withPool, setPool, hm]
  | some it => simp [MM1.remove, MM2.remove, withPool, setPool, hm]

theorem cleanLoop_nil (gl : GLState) (st : MMState) (tick : Int) :
    MM2.cleanLoop gl st tick [] = (gl, st, []) := rfl

theorem cleanLoop_cons (gl : GLState) (st : MMState) (tick : Int) (k : String)
    (it : MemoryItem) (rest : List (String × MemoryItem)) :
    MM2.cleanLoop gl st tick ((k, it) :: rest) =
      if (it.complete && latLt st.lastAccessTime k tick) = true then
        ((MM2.cleanLoop (MM2.remove gl st k).1 (MM2.remove gl st k).2.1 tick rest).1,
         (MM2.cleanLoop (MM2.remove gl st k).1 (MM2.remove gl st k).2.1 tick rest).2.1,
         (MM2.remove gl st k).2.2 ++
           (MM2.cleanLoop (MM2.remove gl st k).1 (MM2.remove gl st k).2.1 tick rest).2.2)
      else MM2.cleanLoop gl st tick rest := rfl

theorem eligKeys_cons (lat : List (String × Int)) (tick : Int) (k : String)
    (it : MemoryItem) (rest : List (String × MemoryItem)) :
    eligKeys lat tick ((k, it) :: rest) =
      if (it.complete && latLt lat k tick) = true then k :: eligKeys lat tick rest
      else eligKeys lat tick rest := by
  by_cases h : (it.complete && latLt lat k tick) = true
  · simp [eligKeys, List.filter_cons, h]
  · simp [eligKeys, List.filter_cons, h]

theorem eligKeys_congr (lat1 lat2 : List (String × Int)) (tick : Int)
    (L : List (String × MemoryItem)) (h : ∀ p ∈ L, mget lat1 p.1 = mget lat2 p.1) :
    eligKeys lat1 tick L = eligKeys lat2 tick L := by
  unfold eligKeys
  refine congrArg (List.map Prod.fst) (List.filter_congr ?_)
  intro p hp
  rw [latLt_congr lat1 lat2 p.1 tick (h p hp)]

theorem cleanLoop_pool_eq (L : List (String × MemoryItem)) :
    ∀ (gl : GLState) (s : MMState) (pl : List MemoryItem) (tick : Int),
      (L.map Prod.fst).Nodup →
      MM2.cleanLoop gl (withPool s pl) tick L =
        setPool (MM1.removeMany gl s (eligKeys s.lastAccessTime tick L)) pl := by
  induction L with
  | nil =>
    intro gl s pl tick _
    rw [cleanLoop_nil]
    simp [eligKeys, removeMany_nil, setPool]
  | cons p rest ih =>
    intro gl s pl tick hnd
    obtain ⟨k, it⟩ := p
    simp only [List.map_cons, List.nodup_cons] at hnd
    rw [cleanLoop_cons, withPool_lat, eligKeys_cons]
    by_cases he : (it.complete && latLt s.lastAccessTime k tick) = true
    · rw [if_pos he, if_pos he, remove2_pool_eq, setPool_fst, setPool_state, setPool_log]
      have hih := ih (MM1.remove gl s k).1 (MM1.remove gl s k).2.1 pl tick hnd.2
      rw [hih]
      have hek : eligKeys (MM1.remove gl s k).2.1.lastAccessTime tick rest =
          eligKeys s.lastAccessTime tick rest := by
        refine eligKeys_congr _ _ _ _ ?_
        intro q hq
        have hqk : q.1 ≠ k := by
          intro hh
          exact hnd.1 (hh ▸ List.mem_map.mpr ⟨q, hq, rfl⟩)
        exact remove1_lat_ne gl s k q.1 hqk
      rw [hek, setPool_fst, setPool_state, setPool_log, removeMany_cons]
      rfl
    · rw [if_neg he, if_neg he]
      exact ih gl s pl tick hnd.2

theorem clean2_pool_eq (gl : GLState) (s : MMState) (pl : List MemoryItem)
    (now : Int) (hnd : (s.memory.map Prod.fst).Nodup) :
    MM2.clean gl (withPool s pl) now = setPool (MM1.clean gl s now) pl := by
  by_cases hrl : s.lastCheckTick + cleanUpInterval > now
  · have hrl' : (withPool s pl).lastCheckTick + cleanUpInterval > now := hrl
    simp only [MM1.clean, MM2.clean, if_pos hrl, if_pos hrl']
    rfl
  · have hrl' : ¬ (withPool s pl).lastCheckTick + cleanUpInterval > now := hrl
    simp only [MM1.clean, MM2.clean, if_neg hrl, if_neg hrl']
    have hcl : MM2.cleanLoop gl (withPool s pl) (now - rememberTime) (withPool s pl).memory =
        setPool (MM1.removeMany gl s (MM1.keysToDelete s (now - rememberTime))) pl :=
      cleanLoop_pool_eq s.memory gl s pl (now - rememberTime) hnd
    rw [hcl, setPool_fst, setPool_state, setPool_log]
    rfl

theorem clean2_eq (gl : GLState) (st : MMState) (now : Int)
    (hnd : (st.memory.map Prod.fst).Nodup) :
    MM2.clean gl st now = setPool (MM1.clean gl st now) st.pool :=
  clean2_pool_eq gl st st.pool now hnd

/-! ## Observation lemmas for `get`, `set`, `exist`, `search`, `remove` -/

theorem eq_withPool_of_obsEq (s1 s2 : MMState) (h : obsEq s1 s2) :
    s1 = withPool s2 s1.pool := by
  obtain ⟨h1, h2, h3⟩ := h
  cases s1 with
  | mk m1 p1 l1 t1 =>
    cases s2 with
    | mk m2 p2 l2 t2 =>
      have h1' : m1 = m2 := h1
      have h2' : l1 = l2 := h2
      have h3' : t1 = t2 := h3
      subst h1'
      subst h2'
      subst h3'
      rfl

theorem obsEq_symm (s1 s2 : MMState) (h : obsEq s1 s2) : obsEq s2 s1 :=
  ⟨h.1.symm, h.2.1.symm, h.2.2.symm⟩

theorem uat_memory (s : MMState) (k : String) (t : Int) :
    (MM2.updateAccessTime s k t).memory = s.memory := rfl

theorem uat_lat (s : MMState) (k : String) (t : Int) :
    (MM2.updateAccessTime s k t).lastAccessTime = mset s.lastAccessTime k t := rfl

theorem uat_tick (s : MMState) (k : String) (t : Int) :
    (MM2.updateAccessTime s k t).lastCheckTick = s.lastCheckTick := rfl

theorem get_pool_obs (s : MMState) (pl : List MemoryItem) (k : String)
    (l e : Option Nat) (now : Int) :
    (MM1.get (withPool s pl) k l e now).1 = (MM2.get s k l e).1 ∧
    (MM1.get (withPool s pl) k l e now).2.2 = (MM2.get s k l e).2.2 ∧
    (MM1.get (withPool s pl) k l e now).2.1.memory = (MM2.get s k l e).2.1.memory ∧
    (MM1.get (withPool s pl) k l e now).2.1.lastAccessTime = mset s.lastAccessTime k now ∧
    (MM2.get s k l e).2.1.lastAccessTime = s.lastAccessTime ∧
    (MM1.get (withPool s pl) k l e now).2.1.lastCheckTick = s.lastCheckTick ∧
    (MM2.get s k l e).2.1.lastCheckTick = s.lastCheckTick := by
  cases hm : mget s.memory k with
  | some it =>
    simp [MM1.get, MM2.get, MM1.getOrCreate, MM2.getOrCreate, withPool, hm]
  | none =>
    cases pl with
    | nil =>
      simp [MM1.get, MM2.get, MM1.getOrCreate, MM2.getOrCreate, withPool, hm]
    | cons it0 rest =>
      simp [MM1.get, MM2.get, MM1.getOrCreate, MM2.getOrCreate, withPool, hm,
        MemoryItem.reset]

theorem set_pool_obs (s : MMState) (pl : List MemoryItem) (k : String)
    (d : JSValue) (err : Bool) :
    (MM1.set (withPool s pl) k d err).2 = (MM2.set s k d err).2 ∧
    (MM1.set (withPool s pl) k d err).1.memory = (MM2.set s k d err).1.memory ∧
    (MM1.set (withPool s pl) k d err).1.lastAccessTime = s.lastAccessTime ∧
    (MM2.set s k d err).1.lastAccessTime = s.lastAccessTime ∧
    (MM1.set (withPool s pl) k d err).1.lastCheckTick = s.lastCheckTick ∧
    (MM2.set s k d err).1.lastCheckTick = s.lastCheckTick := by
  cases hm : mget s.memory k with
  | some it =>
    simp [MM1.set, MM2.set, MM1.getOrCreate, MM2.getOrCreate, withPool, hm]
  | none =>
    cases pl with
    | nil =>
      simp [MM1.set, MM2.set, MM1.getOrCreate, MM2.getOrCreate, withPool, hm]
    | cons it0 rest =>
      simp [MM1.set, MM2.set, MM1.getOrCreate, MM2.getOrCreate, withPool, hm,
        MemoryItem.reset]

/-! ## Lemmas about the extension discriminator -/

theorem suffixFromLastDot_eq_none_iff (cs : List Char) :
    suffixFromLastDot cs = none ↔ '.' ∉ cs := by
  induction cs with
  | nil => simp [suffixFromLastDot]
  | cons c rest ih =>
    cases hs : suffixFromLastDot rest with
    | some e =>
      simp only [suffixFromLastDot, hs]
      constructor
      · intro h
        exact absurd h (by simp)
      · intro h
        have h2 : '.' ∉ rest := fun hc => h (List.mem_cons_of_mem _ hc)
        have h3 := ih.mpr h2
        rw [hs] at h3
        exact absurd h3 (by simp)
    | none =>
      have h2 : '.' ∉ rest := ih.mp hs
      simp only [suffixFromLastDot, hs]
      by_cases hc : c = '.'
      · subst hc
        simp
      · have hc' : ¬ '.' = c := fun hh => hc hh.symm
        simp [hc, hc', h2]

theorem lastDotSuffix_eq (cs : List Char) :
    lastDotSuffix cs =
      match suffixFromLastDot cs with
      | some e => if e.length ≤ 1 then none else some e
      | none => none := by
  induction cs with
  | nil => rfl
  | cons c rest ih =>
    cases hs : suffixFromLastDot rest with
    | some e =>
      have hdot : '.' ∈ rest := by
        by_contra hc
        have h0 := (suffixFromLastDot_eq_none_iff rest).mpr hc
        rw [h0] at hs
        exact absurd hs (by simp)
      have hsc : suffixFromLastDot (c :: rest) = some e := by
        simp [suffixFromLastDot, hs]
      rw [hs] at ih
      by_cases hlen : e.length ≤ 1
      · have hrest : lastDotSuffix rest = none := by
          rw [ih]
          simp [hlen]
        simp [lastDotSuffix, hrest, hsc, hlen, hdot]
      · have hrest : lastDotSuffix rest = some e := by
          rw [ih]
          simp [hlen]
        simp [lastDotSuffix, hrest, hsc, hlen]
    | none =>
      have hnd2 : '.' ∉ rest := (suffixFromLastDot_eq_none_iff rest).mp hs
      have hrest : lastDotSuffix rest = none := by
        rw [ih, hs]
      by_cases hc : c = '.'
      · subst hc
        have hsc : suffixFromLastDot ('.' :: rest) = some ('.' :: rest) := by
          simp [suffixFromLastDot, hs]
        by_cases hr : rest = []
        · subst hr
          simp [lastDotSuffix, hsc]
        · have hlen : ¬ ('.' :: rest).length ≤ 1 := by
            cases rest with
            | nil => exact absurd rfl hr
            | cons x xs => simp [List.length_cons]
          simp [lastDotSuffix, hrest, hsc, hlen, hr, hnd2]
      · have hsc : suffixFromLastDot (c :: rest) = none := by
          simp [suffixFromLastDot, hs, hc]
        simp [lastDotSuffix, hrest, hsc, hc]

theorem freeFile_other (gl : GLState) (ext : String) (file : JSValue)
    (h1 : ext ≠ ".spr") (h2 : ext ≠ ".pal") :
    freeFile gl ext file =
      (gl, if file.isBlob then [GLAction.revokeObjectURL file.blobStr] else []) := by
  by_cases hb : file.isBlob
  · simp [freeFile, h1, h2, hb]
  · simp [freeFile, h1, h2, hb]

/-! ## Further small lemmas used by the claim theorems -/

theorem latLt_iff (lat : List (String × Int)) (k : String) (tick : Int) :
    latLt lat k tick = true ↔ ∃ t, mget lat k = some t ∧ t < tick := by
  unfold latLt
  cases h : mget lat k <;> simp

theorem clean1_not_limited (gl : GLState) (st : MMState) (now : Int)
    (hrl : ¬ st.lastCheckTick + cleanUpInterval > now) :
    MM1.clean gl st now =
      ((MM1.removeMany gl st (MM1.keysToDelete st (now - rememberTime))).1,
       { (MM1.removeMany gl st (MM1.keysToDelete st (now - rememberTime))).2.1 with
           lastCheckTick := now },
       (MM1.removeMany gl st (MM1.keysToDelete st (now - rememberTime))).2.2) := by
  simp only [MM1.clean, if_neg hrl]

theorem clean1_memory (gl : GLState) (st : MMState) (now : Int)
    (hrl : ¬ st.lastCheckTick + cleanUpInterval > now) :
    (MM1.clean gl st now).2.1.memory =
      (MM1.keysToDelete st (now - rememberTime)).foldl merase st.memory := by
  rw [clean1_not_limited gl st now hrl]
  exact removeMany_memory _ gl st

theorem clean1_limited (gl : GLState) (st : MMState) (now : Int)
    (h : st.lastCheckTick + cleanUpInterval > now) :
    MM1.clean gl st now = (gl, st, []) := by
  simp only [MM1.clean, if_pos h]

theorem clean2_limited (gl : GLState) (st : MMState) (now : Int)
    (h : st.lastCheckTick + cleanUpInterval > now) :
    MM2.clean gl st now = (gl, st, []) := by
  simp only [MM2.clean, if_pos h]

/-! ## Claim theorems -/

/-- C1 (counterexample): the claim says a completed entry is evicted when
`lastAccess(k) <= now - rememberWindow`, but the code uses a strict
comparison (`_lastAccessTime.get(filename) < now - _rememberTime`).  At the
boundary — a completed entry last accessed exactly at `now - rememberTime`,
in a sweep that is not rate-limited — the claim demands eviction, yet both
variants keep the entry. -/
theorem c1_counterexample :
    ¬ (stBoundary.lastCheckTick + cleanUpInterval > 150000) ∧
    itemX.complete = true ∧
    mget stBoundary.lastAccessTime "a.txt" = some 30000 ∧
    ((30000 : Int) ≤ 150000 - rememberTime) ∧
    mget (MM1.clean [] stBoundary 150000).2.1.memory "a.txt" = some itemX ∧
    mget (MM2.clean [] stBoundary 150000).2.1.memory "a.txt" = some itemX := by
  decide

/-- C1 (amended): in a sweep pass that is not rate-limited, a key present in
the store is evicted if and only if its entry is complete (Loaded or Error,
never Pending) and the access-time map holds a timestamp `t` for it with
`t < now - rememberTime` (strict, and a key with no timestamp is never
evicted).  Holds for both source variants. -/
theorem c1_clean_evicts_iff (gl : GLState) (st : MMState) (now : Int)
    (k : String) (it : MemoryItem)
    (hnd : (st.memory.map Prod.fst).Nodup)
    (hrl : ¬ st.lastCheckTick + cleanUpInterval > now)
    (hmem : mget st.memory k = some it) :
    (mget (MM1.clean gl st now).2.1.memory k = none ↔
      it.complete = true ∧ ∃ t, mget st.lastAccessTime k = some t ∧
        t < now - rememberTime) ∧
    (mget (MM2.clean gl st now).2.1.memory k = none ↔
      it.complete = true ∧ ∃ t, mget st.lastAccessTime k = some t ∧
        t < now - rememberTime) := by
  have hiff : mget (MM1.clean gl st now).2.1.memory k = none ↔
      (it.complete && latLt st.lastAccessTime k (now - rememberTime)) = true := by
    rw [clean1_memory gl st now hrl, mget_eraseMany]
    by_cases hk : k ∈ MM1.keysToDelete st (now - rememberTime)
    · simp [hk, (mem_keysToDelete st _ k it hnd hmem).mp hk]
    · simp only [hk, if_neg, not_false_iff, hmem]
      constructor
      · intro hc
        exact absurd hc (by simp)
      · intro hc
        exact absurd hk (not_not_intro ((mem_keysToDelete st _ k it hnd hmem).mpr hc))
  have hlat : ((it.complete && latLt st.lastAccessTime k (now - rememberTime)) = true) ↔
      (it.complete = true ∧ ∃ t, mget st.lastAccessTime k = some t ∧
        t < now - rememberTime) := by
    rw [Bool.and_eq_true, latLt_iff]
  have h2 : (MM2.clean gl st now).2.1.memory = (MM1.clean gl st now).2.1.memory := by
    rw [clean2_eq gl st now hnd, setPool_state, withPool_memory]
  constructor
  · rw [hiff, hlat]
  · rw [h2, hiff, hlat]

/-- C1 (witness): in `stSweep` at `now = 150000` the key `"a.txt"`
(complete, last accessed at 0 < 30000) is evicted. -/
theorem c1_witness :
    mget (MM1.clean [] stSweep 150000).2.1.memory "a.txt" = none :=
  (c1_clean_evicts_iff [] stSweep 150000 "a.txt" itemX (by decide) (by decide)
    (by decide)).1.mpr ⟨by decide, 0, by decide, by decide⟩

/-- C4: `clean(gl, now)` is a complete no-op when
`lastCheckTick + cleanUpInterval > now`; otherwise it sets `lastCheckTick`
to `now` unconditionally, so a second call within the interval window is a
no-op regardless of eligible entries.  Holds for both variants. -/
theorem c4_clean_rate_limit (gl : GLState) (st : MMState) (now : Int) :
    (st.lastCheckTick + cleanUpInterval > now →
      MM1.clean gl st now = (gl, st, []) ∧ MM2.clean gl st now = (gl, st, [])) ∧
    (¬ st.lastCheckTick + cleanUpInterval > now →
      (MM1.clean gl st now).2.1.lastCheckTick = now ∧
      (MM2.clean gl st now).2.1.lastCheckTick = now) ∧
    (∀ (gl2 : GLState) (now2 : Int), ¬ st.lastCheckTick + cleanUpInterval > now →
      now2 < now + cleanUpInterval →
      MM1.clean gl2 (MM1.clean gl st now).2.1 now2 =
        (gl2, (MM1.clean gl st now).2.1, []) ∧
      MM2.clean gl2 (MM2.clean gl st now).2.1 now2 =
        (gl2, (MM2.clean gl st now).2.1, [])) := by
  refine ⟨?_, ?_, ?_⟩
  · intro h
    exact ⟨clean1_limited gl st now h, clean2_limited gl st now h⟩
  · intro h
    constructor
    · rw [clean1_not_limited gl st now h]
    · simp [MM2.clean, h]
  · intro gl2 now2 h hlt
    have ht1 : (MM1.clean gl st now).2.1.lastCheckTick = now := by
      rw [clean1_not_limited gl st now h]
    have ht2 : (MM2.clean gl st now).2.1.lastCheckTick = now := by
      simp [MM2.clean, h]
    refine ⟨clean1_limited _ _ _ ?_, clean2_limited _ _ _ ?_⟩
    · rw [ht1]
      exact hlt
    · rw [ht2]
      exact hlt

/-- C4 (witness): a call at `now = 10000` with `lastCheckTick = 0` is a
no-op; a call at `now = 150000` proceeds and stamps `lastCheckTick`; a
follow-up call at `now2 = 160000 < 150000 + 30000` is again a no-op. -/
theorem c4_witness :
    MM1.clean [] stSweep 10000 = ([], stSweep, []) ∧
    (MM1.clean [] stSweep 150000).2.1.lastCheckTick = 150000 ∧
    MM1.clean [] (MM1.clean [] stSweep 150000).2.1 160000 =
      ([], (MM1.clean [] stSweep 150000).2.1, []) :=
  ⟨((c4_clean_rate_limit [] stSweep 10000).1 (by decide)).1,
   ((c4_clean_rate_limit [] stSweep 150000).2.1 (by decide)).1,
   ((c4_clean_rate_limit [] stSweep 150000).2.2 [] 160000 (by decide) (by decide)).1⟩

/-- C7: `remove` on an absent key is a no-op that leaves the whole state
(and the GL context) unchanged and performs no reclamation; `remove` on a
present key leaves `exist` false and no timestamp entry.  Holds for both
variants. -/
theorem c7_remove_absent_present (gl : GLState) (st : MMState) (k : String) :
    (MM1.exist st k = false →
      MM1.remove gl st k = (gl, st, []) ∧ MM2.remove gl st k = (gl, st, [])) ∧
    (MM1.exist st k = true →
      MM1.exist (MM1.remove gl st k).2.1 k = false ∧
      mget (MM1.remove gl st k).2.1.lastAccessTime k = none ∧
      MM2.exist (MM2.remove gl st k).2.1 k = false ∧
      mget (MM2.remove gl st k).2.1.lastAccessTime k = none) := by
  cases hm : mget st.memory k with
  | none =>
    constructor
    · intro _
      constructor
      · simp [MM1.remove, hm]
      · simp [MM2.remove, hm]
    · intro h
      simp [MM1.exist, hm] at h
  | some it =>
    constructor
    · intro h
      simp [MM1.exist, hm] at h
    · intro _
      refine ⟨?_, ?_, ?_, ?_⟩
      · simp [MM1.exist, MM1.remove, hm, mget_erase_self]
      · simp [MM1.remove, hm, mget_erase_self]
      · simp [MM2.exist, MM2.remove, hm, mget_erase_self]
      · simp [MM2.remove, hm, mget_erase_self]

/-- C7 (witness): removing the unseen key `"zzz"` from the empty state is a
no-op; removing the present key `"a.txt"` from `stBoundary` clears both its
slot and its timestamp. -/
theorem c7_witness :
    MM1.remove [] MMState.init "zzz" = ([], MMState.init, []) ∧
    MM1.exist (MM1.remove [] stBoundary "a.txt").2.1 "a.txt" = false ∧
    mget (MM1.remove [] stBoundary "a.txt").2.1.lastAccessTime "a.txt" = none :=
  ⟨((c7_remove_absent_present [] MMState.init "zzz").1 (by decide)).1,
   ((c7_remove_absent_present [] stBoundary "a.txt").2 (by decide)).1,
   ((c7_remove_absent_present [] stBoundary "a.txt").2 (by decide)).2.1⟩

theorem remove2_eq (gl : GLState) (st : MMState) (k : String) :
    MM2.remove gl st k = setPool (MM1.remove gl st k) st.pool :=
  remove2_pool_eq gl st st.pool k

theorem remove1_log_other (gl : GLState) (st : MMState) (k : String)
    (h1 : extOf k ≠ ".spr") (h2 : extOf k ≠ ".pal") :
    (MM1.remove gl st k).1 = gl ∧
    ∀ e ∈ (MM1.remove gl st k).2.2, ∀ a ∈ e.2, a.isDeleteTexture = false := by
  cases hm : mget st.memory k with
  | none =>
    constructor
    · simp [MM1.remove, hm]
    · intro e he
      simp [MM1.remove, hm] at he
  | some it =>
    constructor
    · by_cases ht : it.data.truthy = true
      · simp [MM1.remove, hm, ht, freeFile_other gl _ _ h1 h2]
      · simp [MM1.remove, hm, ht]
    · intro e he a ha
      by_cases ht : it.data.truthy = true
      · simp [MM1.remove, hm, ht, freeFile_other gl _ _ h1 h2] at he
        by_cases hb : it.data.isBlob = true
        · simp [hb] at he
          subst he
          simp at ha
          subst ha
          rfl
        · simp [hb] at he
          subst he
          simp at ha
      · simp [MM1.remove, hm, ht] at he
        subst he
        simp at ha

/-- C5: a non-rate-limited sweep pass evicts exactly the keys eligible at
the start of the pass, each exactly once: the reclamation log of the pass
lists each evicted key once (no duplicates), its keys are exactly the
eligible ones, and a key disappears from the store in the pass exactly when
it was absent already or eligible.  Variant 2, which deletes from the map
being iterated, produces the same log and the same final store as variant
1's snapshot loop. -/
theorem c5_sweep_exact (gl : GLState) (st : MMState) (now : Int)
    (hnd : (st.memory.map Prod.fst).Nodup)
    (hrl : ¬ st.lastCheckTick + cleanUpInterval > now) :
    ((MM1.clean gl st now).2.2.map Prod.fst).Nodup ∧
    (∀ k, k ∈ (MM1.clean gl st now).2.2.map Prod.fst ↔
      ∃ it, mget st.memory k = some it ∧ it.complete = true ∧
        ∃ t, mget st.lastAccessTime k = some t ∧ t < now - rememberTime) ∧
    (∀ k, mget (MM1.clean gl st now).2.1.memory k = none ↔
      (mget st.memory k = none ∨ k ∈ (MM1.clean gl st now).2.2.map Prod.fst)) ∧
    (MM2.clean gl st now).2.2 = (MM1.clean gl st now).2.2 ∧
    (MM2.clean gl st now).2.1.memory = (MM1.clean gl st now).2.1.memory := by
  have hlog : (MM1.clean gl st now).2.2 =
      (MM1.removeMany gl st (MM1.keysToDelete st (now - rememberTime))).2.2 := by
    rw [clean1_not_limited gl st now hrl]
  have hmap : (MM1.removeMany gl st
      (MM1.keysToDelete st (now - rememberTime))).2.2.map Prod.fst =
      MM1.keysToDelete st (now - rememberTime) :=
    removeMany_log _ gl st (keysToDelete_nodup st _ hnd) (keysToDelete_isSome st _)
  have hmem1 := clean1_memory gl st now hrl
  have h2 := clean2_eq gl st now hnd
  refine ⟨?_, ?_, ?_, ?_, ?_⟩
  · rw [hlog, hmap]
    exact keysToDelete_nodup st _ hnd
  · intro k
    rw [hlog, hmap]
    constructor
    · intro hk
      obtain ⟨it, hm⟩ := Option.isSome_iff_exists.mp (keysToDelete_isSome st _ k hk)
      have he := (mem_keysToDelete st _ k it hnd hm).mp hk
      rw [Bool.and_eq_true, latLt_iff] at he
      exact ⟨it, hm, he.1, he.2⟩
    · rintro ⟨it, hm, hc, ht⟩
      refine (mem_keysToDelete st _ k it hnd hm).mpr ?_
      rw [Bool.and_eq_true, latLt_iff]
      exact ⟨hc, ht⟩
  · intro k
    rw [hlog, hmap, hmem1, mget_eraseMany]
    by_cases hk : k ∈ MM1.keysToDelete st (now - rememberTime)
    · simp [hk]
    · simp [hk]
  · rw [h2, setPool_log]
  · rw [h2, setPool_state, withPool_memory]

/-- C5 (witness): sweeping `stSweep` at `now = 150000` evicts exactly
`"a.txt"` (idle since 0), once, and not `"b.txt"` (accessed at 140000). -/
theorem c5_witness :
    ((MM1.clean [] stSweep 150000).2.2.map Prod.fst).Nodup ∧
    "a.txt" ∈ (MM1.clean [] stSweep 150000).2.2.map Prod.fst := by
  have h := c5_sweep_exact [] stSweep 150000 (by decide) (by decide)
  exact ⟨h.1, (h.2.1 "a.txt").mpr ⟨itemX, by decide, by decide, 0, by decide, by decide⟩⟩

/-- C8 (counterexample): the claim defines the discriminator as the
lower-cased substring from the last `.` to the end, empty only for keys
without a `.`.  The key `"a."` has a `.`; the claim's discriminator is
`"."`, but the code's regex `/\.[^\.]+$/` does not match, so the code uses
`""`. -/
theorem c8_counterexample :
    extOf "a." ≠ specDiscriminator "a." ∧
    specDiscriminator "a." = "." ∧ extOf "a." = "" := by
  decide

/-- C8 (amended): the discriminator is the lower-cased substring from the
last `.` to the end provided at least one character follows that `.`; keys
with no `.`, or ending in `.`, get the empty discriminator.  Evicting any
key whose discriminator is neither `".spr"` nor `".pal"` never performs a
GPU texture release and leaves the GL context unchanged (the model has no
exception channel: every `remove` call returns normally). -/
theorem c8_discriminator :
    (∀ f : String, extOf f = specDiscriminatorAmended f) ∧
    (∀ (gl : GLState) (st : MMState) (k : String),
      extOf k ≠ ".spr" → extOf k ≠ ".pal" →
      (MM1.remove gl st k).1 = gl ∧
      (∀ e ∈ (MM1.remove gl st k).2.2, ∀ a ∈ e.2, a.isDeleteTexture = false) ∧
      (MM2.remove gl st k).1 = gl ∧
      (∀ e ∈ (MM2.remove gl st k).2.2, ∀ a ∈ e.2, a.isDeleteTexture = false)) := by
  constructor
  · intro f
    unfold extOf specDiscriminatorAmended
    rw [lastDotSuffix_eq]
    cases hs : suffixFromLastDot f.toList with
    | none => rfl
    | some e =>
      by_cases hlen : e.length ≤ 1
      · simp [hlen]
      · simp [hlen]
  · intro gl st k h1 h2
    have hm1 := remove1_log_other gl st k h1 h2
    have hm2 := remove2_eq gl st k
    refine ⟨hm1.1, hm1.2, ?_, ?_⟩
    · rw [hm2, setPool_fst]
      exact hm1.1
    · rw [hm2, setPool_log]
      exact hm1.2

/-- C8 (witness): evicting `"c.dat"` (truthy string payload, unrecognized
suffix) leaves the GL context unchanged. -/
theorem c8_witness :
    (MM1.remove [5] { memory := [("c.dat", itemX)], pool := [],
                      lastAccessTime := [], lastCheckTick := 0 } "c.dat").1 = [5] :=
  (c8_discriminator.2 [5] _ "c.dat" (by decide) (by decide)).1

/-- C10: removing a present key whose payload is falsy (e.g. a still-Pending
entry) performs no reclamation action at all (GL context unchanged, empty
action list) and still deletes the slot and the timestamp.  Holds for both
variants. -/
theorem c10_remove_falsy_payload (gl : GLState) (st : MMState) (k : String)
    (it : MemoryItem) (hmem : mget st.memory k = some it)
    (hfalsy : it.data.truthy = false) :
    MM1.remove gl st k =
      (gl, { st with memory := merase st.memory k,
                     pool := st.pool ++ [it.reset],
                     lastAccessTime := merase st.lastAccessTime k }, [(k, [])]) ∧
    MM2.remove gl st k =
      (gl, { st with memory := merase st.memory k,
                     lastAccessTime := merase st.lastAccessTime k }, [(k, [])]) ∧
    mget (MM1.remove gl st k).2.1.memory k = none ∧
    mget (MM1.remove gl st k).2.1.lastAccessTime k = none := by
  refine ⟨?_, ?_, ?_, ?_⟩ <;>
    simp [MM1.remove, MM2.remove, hmem, hfalsy, mget_erase_self]

/-- C10 (witness): removing the pending entry `"a.spr"` of `stPending`
performs no action and clears slot and timestamp. -/
theorem c10_witness :
    MM1.remove [] stPending "a.spr" =
      ([], { memory := [], pool := [MemoryItem.new], lastAccessTime := [],
             lastCheckTick := 0 }, [("a.spr", [])]) := by
  have h := c10_remove_falsy_payload [] stPending "a.spr" MemoryItem.new
    (by decide) (by decide)
  exact h.1.trans (by decide)

/-- C2 (counterexample): in the fresh-allocation variant, `get` creates the
slot but records no last-access timestamp: after `get` on an unseen key the
key is present yet the timestamp map has no entry for it, contradicting
"the timestamp map is updated on every get". -/
theorem c2_counterexample :
    MM2.exist (MM2.get MMState.init "a.spr" none none).2.1 "a.spr" = true ∧
    mget (MM2.get MMState.init "a.spr" none none).2.1.lastAccessTime "a.spr" = none := by
  decide

/-- C2 (amended): in the pooled variant every `get` records the current
time (`Date.now()`, passed here as `now`) as the key's last-access
timestamp; in the other variant `get` leaves the timestamp map entirely
unchanged (its timestamps are written only by `updateAccessTime`). -/
theorem c2_get_timestamp (st : MMState) (k : String) (l e : Option Nat) (now : Int) :
    mget (MM1.get st k l e now).2.1.lastAccessTime k = some now ∧
    (MM2.get st k l e).2.1.lastAccessTime = st.lastAccessTime := by
  have h := get_pool_obs st st.pool k l e now
  constructor
  · have h4 : (MM1.get st k l e now).2.1.lastAccessTime = mset st.lastAccessTime k now :=
      h.2.2.2.1
    rw [h4, mget_set_self]
  · exact h.2.2.2.2.1

/-- C3 (code bug): `set` creates the slot but never records a timestamp, in
either variant, so a key created by `set` alone is present in the store with
no entry in the access-time map — and, because a missing timestamp never
compares less than the idle threshold, such an entry is never evicted by
`clean`, contradicting both the stated invariant and the module's own
header ("files are removed automatically if not used"). -/
theorem c3_set_leaves_no_timestamp :
    MM1.exist (MM1.set MMState.init "a.spr" (JSValue.strV "DATA") false).1 "a.spr" = true ∧
    mget (MM1.set MMState.init "a.spr" (JSValue.strV "DATA") false).1.lastAccessTime
      "a.spr" = none ∧
    MM2.exist (MM2.set MMState.init "a.spr" (JSValue.strV "DATA") false).1 "a.spr" = true ∧
    mget (MM2.set MMState.init "a.spr" (JSValue.strV "DATA") false).1.lastAccessTime
      "a.spr" = none ∧
    (mget (MM1.clean [] (MM1.set MMState.init "a.spr" (JSValue.strV "DATA") false).1
      1000000).2.1.memory "a.spr").isSome = true := by
  decide

/-- C6: `set(key, payload, errorFlag)` resolves the entry to Error exactly
when the flag is truthy or the payload is falsy, and to Loaded otherwise;
every listener invocation it fires goes through the channel matching that
outcome (error listeners on Error, load listeners on Loaded) — nothing is
thrown (the model has no exception channel; `set` always returns).  Holds
for both variants. -/
theorem c6_set_outcome (st : MMState) (k : String) (d : JSValue) (err : Bool) :
    ((mget (MM1.set st k d err).1.memory k).map MemoryItem.state =
      some (if (err || !d.truthy) = true then ItemState.error else ItemState.loaded)) ∧
    (∀ ev ∈ (MM1.set st k d err).2, ev.isErr = (err || !d.truthy)) ∧
    ((mget (MM2.set st k d err).1.memory k).map MemoryItem.state =
      some (if (err || !d.truthy) = true then ItemState.error else ItemState.loaded)) ∧
    (∀ ev ∈ (MM2.set st k d err).2, ev.isErr = (err || !d.truthy)) := by
  refine ⟨?_, ?_, ?_, ?_⟩
  · by_cases he : (err || !d.truthy) = true
    · simp [MM1.set, he, MemoryItem.onerror, mget_set_self]
    · simp [MM1.set, he, MemoryItem.onload, mget_set_self]
  · intro ev hev
    by_cases he : (err || !d.truthy) = true
    · rw [he]
      simp [MM1.set, he, MemoryItem.onerror] at hev
      rcases hev with ⟨l, hl, rfl⟩
      rfl
    · have hf : (err || !d.truthy) = false := by
        simp at he
        simp [he]
      rw [hf]
      simp [MM1.set, hf, MemoryItem.onload] at hev
      rcases hev with ⟨l, hl, rfl⟩
      rfl
  · by_cases he : (err || !d.truthy) = true
    · simp [MM2.set, he, MemoryItem.onerror, mget_set_self]
    · simp [MM2.set, he, MemoryItem.onload, mget_set_self]
  · intro ev hev
    by_cases he : (err || !d.truthy) = true
    · rw [he]
      simp [MM2.set, he, MemoryItem.onerror] at hev
      rcases hev with ⟨l, hl, rfl⟩
      rfl
    · have hf : (err || !d.truthy) = false := by
        simp at he
        simp [he]
      rw [hf]
      simp [MM2.set, hf, MemoryItem.onload] at hev
      rcases hev with ⟨l, hl, rfl⟩
      rfl

/-- C6 (witness): `set("b.pal", null, false)` on a pending entry with error
listener 2 resolves to Error (falsy payload) and fires the error channel. -/
theorem c6_witness :
    (mget (MM1.set stWait "b.pal" JSValue.nullV false).1.memory "b.pal").map
      MemoryItem.state = some ItemState.error ∧
    (Ev.err 2 JSValue.nullV).isErr = (false || !JSValue.nullV.truthy) := by
  have h := c6_set_outcome stWait "b.pal" JSValue.nullV false
  exact ⟨h.1.trans (by decide), h.2.1 (Ev.err 2 JSValue.nullV) (by decide)⟩

/-- C9 (counterexample): starting from equal (initial) states, one `get`
already separates the two variants: variant 1 records a timestamp for the
key, variant 2 does not, so the timestamp maps (and, after a later `clean`,
the stores) are not equal. -/
theorem c9_counterexample :
    (MM1.get MMState.init "a.spr" none none 5).2.1.lastAccessTime ≠
      (MM2.get MMState.init "a.spr" none none).2.1.lastAccessTime := by
  decide

/-- C9 (amended): the two variants correspond once each variant-1 `get(k)`
(at clock value `now`) is matched in variant 2 by `get(k)` followed by
`updateAccessTime(k, now)`: from observably equal states (pool set aside,
as pooling is unobservable — reset slots are pristine) the matched
operations return the same results, fire the same listeners, perform the
same reclamation actions, and leave observably equal states; in particular
variant 2's inline eviction loop agrees with variant 1's snapshot loop. -/
theorem c9_variants_correspond (s1 s2 : MMState) (h : obsEq s1 s2) :
    (∀ (k : String) (l e : Option Nat) (now : Int),
      (MM1.get s1 k l e now).1 = (MM2.get s2 k l e).1 ∧
      (MM1.get s1 k l e now).2.2 = (MM2.get s2 k l e).2.2 ∧
      obsEq (MM1.get s1 k l e now).2.1
        (MM2.updateAccessTime (MM2.get s2 k l e).2.1 k now)) ∧
    (∀ (k : String) (d : JSValue) (err : Bool),
      (MM1.set s1 k d err).2 = (MM2.set s2 k d err).2 ∧
      obsEq (MM1.set s1 k d err).1 (MM2.set s2 k d err).1) ∧
    (∀ k : String, MM1.exist s1 k = MM2.exist s2 k) ∧
    (∀ p : String → Bool, MM1.search s1 p = MM2.search s2 p) ∧
    (∀ (gl : GLState) (k : String),
      (MM1.remove gl s1 k).1 = (MM2.remove gl s2 k).1 ∧
      (MM1.remove gl s1 k).2.2 = (MM2.remove gl s2 k).2.2 ∧
      obsEq (MM1.remove gl s1 k).2.1 (MM2.remove gl s2 k).2.1) ∧
    (∀ (gl : GLState) (now : Int), (s1.memory.map Prod.fst).Nodup →
      (MM1.clean gl s1 now).1 = (MM2.clean gl s2 now).1 ∧
      (MM1.clean gl s1 now).2.2 = (MM2.clean gl s2 now).2.2 ∧
      obsEq (MM1.clean gl s1 now).2.1 (MM2.clean gl s2 now).2.1) := by
  have hs1 : s1 = withPool s2 s1.pool := eq_withPool_of_obsEq s1 s2 h
  have hs2 : s2 = withPool s1 s2.pool := eq_withPool_of_obsEq s2 s1 (obsEq_symm s1 s2 h)
  refine ⟨?_, ?_, ?_, ?_, ?_, ?_⟩
  · intro k l e now
    rw [hs1]
    have hg := get_pool_obs s2 s1.pool k l e now
    refine ⟨hg.1, hg.2.1, hg.2.2.1, ?_, ?_⟩
    · exact hg.2.2.2.1.trans
        (congrArg (fun L => mset L k now) hg.2.2.2.2.1.symm)
    · exact hg.2.2.2.2.2.1.trans hg.2.2.2.2.2.2.symm
  · intro k d err
    rw [hs1]
    have hseteq := set_pool_obs s2 s1.pool k d err
    refine ⟨hseteq.1, hseteq.2.1, ?_, ?_⟩
    · exact hseteq.2.2.1.trans hseteq.2.2.2.1.symm
    · exact hseteq.2.2.2.2.1.trans hseteq.2.2.2.2.2.symm
  · intro k
    rw [hs1]
    rfl
  · intro p
    rw [hs1]
    rfl
  · intro gl k
    rw [hs2, remove2_pool_eq gl s1 s2.pool k]
    exact ⟨rfl, rfl, rfl, rfl, rfl⟩
  · intro gl now hnd
    rw [hs2, clean2_pool_eq gl s1 s2.pool now hnd]
    exact ⟨rfl, rfl, rfl, rfl, rfl⟩

/-- C9 (witness): from the initial state, a matched `get`/`get +
updateAccessTime` pair returns the same data and leaves observably equal
states. -/
theorem c9_witness :
    (MM1.get MMState.init "a.spr" (some 1) none 7).1 =
      (MM2.get MMState.init "a.spr" (some 1) none).1 ∧
    obsEq (MM1.get MMState.init "a.spr" (some 1) none 7).2.1
      (MM2.updateAccessTime (MM2.get MMState.init "a.spr" (some 1) none).2.1
        "a.spr" 7) := by
  have h := c9_variants_correspond MMState.init MMState.init ⟨rfl, rfl, rfl⟩
  exact ⟨(h.1 "a.spr" (some 1) none 7).1, (h.1 "a.spr" (some 1) none 7).2.2⟩
